import Mathlib

/-!
Shallow embedding of the pigmora-wasm document/command editing engine.

The Rust source stores scalar coordinates as `f32`; here they are modelled as
rationals (`Rat`), which keeps the clamping (`max 1.0`) and equality tests of
the source exact and decidable. Element and layer ids are Rust `u32`; they are
modelled as `Nat`, with the `u32` saturation bound `4294967295` made explicit
at the one place the source uses `saturating_add`, and the allocator increment
taken modulo `2^32`. Vectors become `List`s; `Vec::push`/`pop` on the history
stacks become cons/head on lists (head of the list is the top of the stack).
-/

namespace Pigmora

/-- The value `u32::MAX`, the saturation bound used by `recalculate_next_id`. -/
def u32Max : Nat := 4294967295

/-- Color: 4 normalized scalars, from `src/document/mod.rs`. -/
structure Color where
  r : Rat
  g : Rat
  b : Rat
  a : Rat
deriving DecidableEq, Repr

def Color.new (r g b a : Rat) : Color := ⟨r, g, b, a⟩

/-- Transform2D from `src/document/transform.rs`. -/
structure Transform2D where
  x : Rat
  y : Rat
  width : Rat
  height : Rat
  rotation : Rat
deriving DecidableEq, Repr

def Transform2D.new (x y width height : Rat) : Transform2D :=
  ⟨x, y, width, height, 0⟩

/-- ShapeType from `src/elements/shape.rs`. -/
inductive ShapeType where
  | Rect
  | Ellipse
  | Line
  | Polygon
deriving DecidableEq, Repr

structure Fill where
  color : Color
deriving DecidableEq, Repr

structure Stroke where
  color : Color
  width : Rat
deriving DecidableEq, Repr

/-- ShapeElement from `src/elements/shape.rs`. -/
structure ShapeElement where
  shape_type : ShapeType
  fill : Option Fill
  stroke : Option Stroke
deriving DecidableEq, Repr

/-- Source `ShapeElement::rectangle()`. -/
def ShapeElement.rectangle : ShapeElement :=
  { shape_type := ShapeType.Rect
    fill := some ⟨Color.new (86/100) (42/100) (25/100) 1⟩
    stroke := none }

/-- TextElement from `src/elements/text.rs`. -/
structure TextElement where
  content : String
  font_family : String
  font_size : Rat
  fill : Color
deriving DecidableEq, Repr

def TextElement.new (content : String) : TextElement :=
  { content := content
    font_family := "system-ui"
    font_size := 24
    fill := Color.new (1/10) (1/10) (1/10) 1 }

structure ImageFilters where
  brightness : Rat
  contrast : Rat
  saturation : Rat
deriving DecidableEq, Repr

def ImageFilters.default : ImageFilters := ⟨1, 1, 1⟩

/-- ImageElement from `src/elements/image.rs`. -/
structure ImageElement where
  source : String
  filters : ImageFilters
deriving DecidableEq, Repr

def ImageElement.new (source : String) : ImageElement :=
  ⟨source, ImageFilters.default⟩

/-- ElementData from `src/elements/mod.rs`. -/
inductive ElementData where
  | Shape (s : ShapeElement)
  | Text (t : TextElement)
  | Image (i : ImageElement)
deriving DecidableEq, Repr

/-- Whether the data is the Text variant. -/
def ElementData.isText : ElementData → Bool
  | ElementData.Text _ => true
  | _ => false

/-- Element from `src/document/element.rs`. -/
structure Element where
  id : Nat
  name : String
  transform : Transform2D
  data : ElementData
deriving DecidableEq, Repr

def Element.shape (id : Nat) (name : String) (s : ShapeElement) (t : Transform2D) : Element :=
  ⟨id, name, t, ElementData.Shape s⟩

def Element.text (id : Nat) (name : String) (tx : TextElement) (t : Transform2D) : Element :=
  ⟨id, name, t, ElementData.Text tx⟩

def Element.image (id : Nat) (name : String) (im : ImageElement) (t : Transform2D) : Element :=
  ⟨id, name, t, ElementData.Image im⟩

/-- Layer from `src/document/layer.rs`. -/
structure Layer where
  id : Nat
  name : String
  visible : Bool
  locked : Bool
  elements : List Element
deriving DecidableEq, Repr

def Layer.new (id : Nat) (name : String) : Layer :=
  { id := id, name := name, visible := true, locked := false, elements := [] }

/-- Canvas from `src/document/canvas.rs`. -/
structure Canvas where
  width : Nat
  height : Nat
  background : Color
deriving DecidableEq, Repr

def Canvas.new (width height : Nat) : Canvas :=
  ⟨width, height, Color.new 1 1 1 1⟩

/-- Document from `src/document/mod.rs`. -/
structure Document where
  canvas : Canvas
  layers : List Layer
  active_layer_id : Nat
  next_id : Nat
deriving DecidableEq, Repr

def Document.new (width height : Nat) : Document :=
  { canvas := Canvas.new width height
    layers := [Layer.new 1 "Layer 1"]
    active_layer_id := 1
    next_id := 2 }

/-- Source `Document::next_element_id`: returns the counter, then increments it
(the `+= 1` is a `u32` increment, hence the modulus). -/
def Document.next_element_id (doc : Document) : Nat × Document :=
  (doc.next_id, { doc with next_id := (doc.next_id + 1) % 2 ^ 32 })

/-- The max-id scan of `Document::recalculate_next_id`, in the loop order of
the source: per layer, the layer id first, then each element id. -/
def maxIdScan (layers : List Layer) : Nat :=
  layers.foldl (fun m l => l.elements.foldl (fun m2 e => Nat.max m2 e.id) (Nat.max m l.id)) 0

/-- Source `Document::recalculate_next_id`: `next_id := max_id.saturating_add(1)`;
if no layers exist, synthesize a fresh layer and make it active. -/
def Document.recalculate_next_id (doc : Document) : Document :=
  let max_id := maxIdScan doc.layers
  let doc := { doc with next_id := Nat.min (max_id + 1) u32Max }
  if doc.layers.isEmpty then
    let (id, doc) := doc.next_element_id
    { doc with layers := doc.layers ++ [Layer.new id "Layer 1"], active_layer_id := id }
  else
    doc

/-- Source `Document::add_layer`. -/
def Document.add_layer (doc : Document) (name : String) : Nat × Document :=
  let (id, doc) := doc.next_element_id
  (id, { doc with layers := doc.layers ++ [Layer.new id name] })

/-- Source `Vec::insert` at `index.min(len)`, the clamped insertion of
`insert_element_at`. -/
def insertClamped (es : List Element) (index : Nat) (el : Element) : List Element :=
  match index with
  | 0 => el :: es
  | n + 1 =>
    match es with
    | [] => [el]
    | e :: rest => e :: insertClamped rest n el

/-- Insert into the first layer whose id matches; `none` if no layer matches. -/
def insertAtInLayers (layers : List Layer) (layer_id index : Nat) (el : Element) :
    Option (List Layer) :=
  match layers with
  | [] => none
  | l :: ls =>
    if l.id = layer_id then
      some ({ l with elements := insertClamped l.elements index el } :: ls)
    else
      (insertAtInLayers ls layer_id index el).map (l :: ·)

/-- Source `Document::insert_element_at`. -/
def Document.insert_element_at (doc : Document) (layer_id index : Nat) (el : Element) :
    Document × Bool :=
  match insertAtInLayers doc.layers layer_id index el with
  | some ls => ({ doc with layers := ls }, true)
  | none => (doc, false)

/-- Source `iter().position(|el| el.id == id)` followed by `Vec::remove`: position,
removed element, and the remainder of the list. -/
def removeElemInList (es : List Element) (eid : Nat) : Option (Nat × Element × List Element) :=
  match es with
  | [] => none
  | e :: rest =>
    if e.id = eid then some (0, e, rest)
    else (removeElemInList rest eid).map (fun r => (r.1 + 1, r.2.1, e :: r.2.2))

/-- The layer scan of `remove_element_by_id`: first layer containing the id. -/
def removeByIdInLayers (layers : List Layer) (eid : Nat) :
    Option (Nat × Nat × Element × List Layer) :=
  match layers with
  | [] => none
  | l :: ls =>
    match removeElemInList l.elements eid with
    | some r => some (l.id, r.1, r.2.1, { l with elements := r.2.2 } :: ls)
    | none => (removeByIdInLayers ls eid).map (fun r => (r.1, r.2.1, r.2.2.1, l :: r.2.2.2))

/-- Source `Document::remove_element_by_id`: returns `(layer_id, index, element)` and
the updated document. -/
def Document.remove_element_by_id (doc : Document) (eid : Nat) :
    Option (Nat × Nat × Element) × Document :=
  match removeByIdInLayers doc.layers eid with
  | some r => (some (r.1, r.2.1, r.2.2.1), { doc with layers := r.2.2.2 })
  | none => (none, doc)

/-- In-place replacement of the first element with the given id. -/
def replaceElemInList (es : List Element) (eid : Nat) (el : Element) :
    Option (List Element) :=
  match es with
  | [] => none
  | e :: rest =>
    if e.id = eid then some (el :: rest)
    else (replaceElemInList rest eid el).map (e :: ·)

def replaceByIdInLayers (layers : List Layer) (eid : Nat) (el : Element) :
    Option (List Layer) :=
  match layers with
  | [] => none
  | l :: ls =>
    match replaceElemInList l.elements eid el with
    | some es => some ({ l with elements := es } :: ls)
    | none => (replaceByIdInLayers ls eid el).map (l :: ·)

/-- Source `Document::replace_element_by_id`. -/
def Document.replace_element_by_id (doc : Document) (eid : Nat) (el : Element) :
    Document × Bool :=
  match replaceByIdInLayers doc.layers eid el with
  | some ls => ({ doc with layers := ls }, true)
  | none => (doc, false)

/-- The fast path of `replace_element_at`: in the first layer whose id matches
`layer_id`, replace slot `index` only if that slot holds the same element id;
`none` means the fast path did not fire. -/
def replaceAtInLayers (layers : List Layer) (layer_id index : Nat) (el : Element) :
    Option (List Layer) :=
  match layers with
  | [] => none
  | l :: ls =>
    if l.id = layer_id then
      match l.elements[index]? with
      | some cur =>
        if cur.id = el.id then some ({ l with elements := l.elements.set index el } :: ls)
        else none
      | none => none
    else
      (replaceAtInLayers ls layer_id index el).map (l :: ·)

/-- Source `Document::replace_element_at`: fast path at the exact slot, falling back
to `replace_element_by_id` when it misses. -/
def Document.replace_element_at (doc : Document) (layer_id index : Nat) (el : Element) :
    Document × Bool :=
  match replaceAtInLayers doc.layers layer_id index el with
  | some ls => ({ doc with layers := ls }, true)
  | none => doc.replace_element_by_id el.id el

/-- ElementUpdate from `src/document/element.rs`: a sparse set of optional
fields. -/
structure ElementUpdate where
  name : Option String
  x : Option Rat
  y : Option Rat
  width : Option Rat
  height : Option Rat
  rotation : Option Rat
  content : Option String
  font_family : Option String
  font_size : Option Rat
  fill : Option Color
deriving DecidableEq, Repr

/-- The all-`none` update (the `Default` derive of the source). -/
def ElementUpdate.empty : ElementUpdate :=
  ⟨none, none, none, none, none, none, none, none, none, none⟩

/-- Source `ElementUpdate::apply_to`: writes only the present fields; width, height
and font_size are clamped to a minimum of 1; the text-only fields touch the
data only when it is the Text variant. The source performs a sequence of
independent field writes; since no write reads a previously written field,
that sequence is transcribed here as a single field-by-field record update. -/
def ElementUpdate.apply_to (u : ElementUpdate) (el : Element) : Element :=
  { id := el.id
    name := u.name.getD el.name
    transform :=
      { x := u.x.getD el.transform.x
        y := u.y.getD el.transform.y
        width :=
          match u.width with
          | some w => max w 1
          | none => el.transform.width
        height :=
          match u.height with
          | some h => max h 1
          | none => el.transform.height
        rotation := u.rotation.getD el.transform.rotation }
    data :=
      match el.data with
      | ElementData.Text t =>
        ElementData.Text
          { content := u.content.getD t.content
            font_family := u.font_family.getD t.font_family
            font_size :=
              match u.font_size with
              | some s => max s 1
              | none => t.font_size
            fill := u.fill.getD t.fill }
      | d => d }

/-- The layer scan of `apply_update`: at the first element with the id, clone
`before`, compute `after := update.apply_to(before)`, write it back. -/
def applyUpdateInLayers (layers : List Layer) (eid : Nat) (u : ElementUpdate) :
    Option (Nat × Nat × Element × Element × List Layer) :=
  match layers with
  | [] => none
  | l :: ls =>
    match removeElemInList l.elements eid with
    | some r =>
      match replaceElemInList l.elements eid (u.apply_to r.2.1) with
      | some es => some (l.id, r.1, r.2.1, u.apply_to r.2.1, { l with elements := es } :: ls)
      | none => none
    | none =>
      (applyUpdateInLayers ls eid u).map
        (fun r => (r.1, r.2.1, r.2.2.1, r.2.2.2.1, l :: r.2.2.2.2))

/-- Source `Document::apply_update`: returns `(layer_id, index, before, after)` and
the updated document; the document is untouched when the id is absent. -/
def Document.apply_update (doc : Document) (eid : Nat) (u : ElementUpdate) :
    Option (Nat × Nat × Element × Element) × Document :=
  match applyUpdateInLayers doc.layers eid u with
  | some r => (some (r.1, r.2.1, r.2.2.1, r.2.2.2.1), { doc with layers := r.2.2.2.2 })
  | none => (none, doc)

/-- Source `Document::get_element_transform`. -/
def Document.get_element_transform (doc : Document) (eid : Nat) : Option Transform2D :=
  (doc.layers.flatMap (·.elements)).find? (fun el => el.id = eid) |>.map (·.transform)

/-- Source `Document::find_first_shape`: first element in layer order whose data is a
Shape variant. -/
def Document.find_first_shape (doc : Document) : Option Nat :=
  (doc.layers.flatMap (·.elements)).find? (fun el =>
    match el.data with
    | ElementData.Shape _ => true
    | _ => false) |>.map (·.id)

/-- The element scan of the spec-level id lookups: position and element of the
first match in a single layer. -/
def findElemInList (es : List Element) (eid : Nat) : Option (Nat × Element) :=
  match es with
  | [] => none
  | e :: rest =>
    if e.id = eid then some (0, e)
    else (findElemInList rest eid).map (fun r => (r.1 + 1, r.2))

/-- Modelled from the spec: the bodies of `Document::get_element_by_id` and
`Document::find_element_location` are exercised by the controller in
`src/lib.rs` but are absent from the excerpted source; the spec (section 4.1)
states both return the first match in layer order, `find_element_location`
giving the owning layer id and current index. This is that common scan. -/
def findInLayers (layers : List Layer) (eid : Nat) : Option (Nat × Nat × Element) :=
  match layers with
  | [] => none
  | l :: ls =>
    match findElemInList l.elements eid with
    | some r => some (l.id, r.1, r.2)
    | none => findInLayers ls eid

/-- Modelled from the spec: `get_element_by_id` returns the first match in
layer order. -/
def Document.get_element_by_id (doc : Document) (eid : Nat) : Option Element :=
  (findInLayers doc.layers eid).map (·.2.2)

/-- Modelled from the spec: `find_element_location` returns the owning layer
id and the element's current index. -/
def Document.find_element_location (doc : Document) (eid : Nat) : Option (Nat × Nat) :=
  (findInLayers doc.layers eid).map (fun r => (r.1, r.2.1))

/-- Command from `src/document/history.rs`. -/
inductive Command where
  | AddElement (layer_id : Nat) (index : Nat) (element : Element)
  | DeleteElement (layer_id : Nat) (index : Nat) (element : Element)
  | UpdateElement (layer_id : Nat) (index : Nat) (before : Element) (after : Element)
deriving DecidableEq, Repr

/-- Source `Command::apply`. -/
def Command.apply : Command → Document → Document × Bool
  | Command.AddElement layer_id index element, doc =>
    doc.insert_element_at layer_id index element
  | Command.DeleteElement _ _ element, doc =>
    let r := doc.remove_element_by_id element.id
    (r.2, r.1.isSome)
  | Command.UpdateElement layer_id index _ after, doc =>
    doc.replace_element_at layer_id index after

/-- Source `Command::undo`. -/
def Command.undoCmd : Command → Document → Document × Bool
  | Command.AddElement _ _ element, doc =>
    let r := doc.remove_element_by_id element.id
    (r.2, r.1.isSome)
  | Command.DeleteElement layer_id index element, doc =>
    doc.insert_element_at layer_id index element
  | Command.UpdateElement layer_id index before _, doc =>
    doc.replace_element_at layer_id index before

/-- History from `src/document/history.rs`: two stacks, the head of each list
being the top of the stack. -/
structure History where
  undo_stack : List Command
  redo_stack : List Command
deriving DecidableEq, Repr

def History.new : History := ⟨[], []⟩

/-- Source `History::clear`. -/
def History.clear (_h : History) : History := ⟨[], []⟩

/-- Source `History::record`: push onto `undo_stack`, unconditionally clear
`redo_stack`. -/
def History.record (h : History) (c : Command) : History :=
  { undo_stack := c :: h.undo_stack, redo_stack := [] }

/-- Source `History::undo`: pop the top command; on a successful `undo(doc)` move it
to `redo_stack`, otherwise drop it. Returns the new history, the new document
and the reported Bool. -/
def History.undo (h : History) (doc : Document) : History × Document × Bool :=
  match h.undo_stack with
  | [] => (h, doc, false)
  | c :: rest =>
    let r := c.undoCmd doc
    if r.2 then
      ({ undo_stack := rest, redo_stack := c :: h.redo_stack }, r.1, true)
    else
      ({ undo_stack := rest, redo_stack := h.redo_stack }, r.1, false)

/-- Source `History::redo`: symmetric, using `apply`. -/
def History.redo (h : History) (doc : Document) : History × Document × Bool :=
  match h.redo_stack with
  | [] => (h, doc, false)
  | c :: rest =>
    let r := c.apply doc
    if r.2 then
      ({ undo_stack := c :: h.undo_stack, redo_stack := rest }, r.1, true)
    else
      ({ undo_stack := h.undo_stack, redo_stack := rest }, r.1, false)

/-- TransformSnapshot from `src/lib.rs`. -/
structure TransformSnapshot where
  element_id : Nat
  before : Element
deriving DecidableEq, Repr

inductive Tool where
  | Select
  | Shape
  | Text
  | Image
deriving DecidableEq, Repr

/-- The engine state of `src/lib.rs` (the renderer handle, an external
collaborator, is not part of the state modelled here). -/
structure PigmoraEngine where
  document : Document
  history : History
  selected_element_id : Option Nat
  active_tool : Tool
  active_shape_type : ShapeType
  transform_snapshot : Option TransformSnapshot
deriving DecidableEq, Repr

/-- Source `PigmoraEngine::sync_selection`. -/
def PigmoraEngine.sync_selection (e : PigmoraEngine) : PigmoraEngine :=
  match e.selected_element_id with
  | none => e
  | some eid =>
    if (e.document.get_element_transform eid).isSome then e
    else { e with selected_element_id := e.document.find_first_shape }

/-- Source `PigmoraEngine::update_element` (with the update already decoded from the
host payload, decoding being the external boundary). -/
def PigmoraEngine.update_element (e : PigmoraEngine) (element_id : Nat) (u : ElementUpdate) :
    PigmoraEngine × Bool :=
  match e.document.apply_update element_id u with
  | (some r, doc) =>
    let e1 := { e with
      document := doc
      history := e.history.record (Command.UpdateElement r.1 r.2.1 r.2.2.1 r.2.2.2) }
    let e2 := if e1.selected_element_id = some element_id then e1.sync_selection else e1
    (e2, true)
  | (none, _) => (e, false)

/-- Source `PigmoraEngine::begin_transform`. -/
def PigmoraEngine.begin_transform (e : PigmoraEngine) : PigmoraEngine × Bool :=
  match e.selected_element_id with
  | none => (e, false)
  | some element_id =>
    match e.document.get_element_by_id element_id with
    | none => (e, false)
    | some element =>
      ({ e with transform_snapshot := some ⟨element_id, element⟩ }, true)

/-- Source `PigmoraEngine::commit_transform`. -/
def PigmoraEngine.commit_transform (e : PigmoraEngine) : PigmoraEngine × Bool :=
  match e.transform_snapshot with
  | none => (e, false)
  | some snapshot =>
    let e := { e with transform_snapshot := none }
    match e.document.get_element_by_id snapshot.element_id with
    | none => (e, false)
    | some after =>
      if snapshot.before.transform = after.transform then (e, false)
      else
        match e.document.find_element_location snapshot.element_id with
        | some loc =>
          ({ e with history :=
              e.history.record (Command.UpdateElement loc.1 loc.2 snapshot.before after) },
            true)
        | none => (e, false)

/-- Render shape kinds from `src/renderer`. -/
inductive ShapeKind where
  | Rect
  | Ellipse
  | Diamond
deriving DecidableEq, Repr

/-- The renderer-facing rectangle. -/
structure Rect where
  x : Rat
  y : Rat
  width : Rat
  height : Rat
deriving DecidableEq, Repr

structure RenderShape where
  rect : Rect
  shape : ShapeKind
deriving DecidableEq, Repr

/-- One iteration of the inner element loop of `collect_rects`. -/
def projectStep (selected_id : Option Nat) (acc : List RenderShape × Option Rect)
    (element : Element) : List RenderShape × Option Rect :=
  let t := element.transform
  let rect : Rect := ⟨t.x, t.y, t.width, t.height⟩
  let rects :=
    match element.data with
    | ElementData.Shape shape =>
      let shape_kind :=
        match shape.shape_type with
        | ShapeType.Rect => ShapeKind.Rect
        | ShapeType.Ellipse => ShapeKind.Ellipse
        | ShapeType.Polygon => ShapeKind.Diamond
        | ShapeType.Line => ShapeKind.Rect
      acc.1 ++ [⟨rect, shape_kind⟩]
    | ElementData.Image _ => acc.1 ++ [⟨rect, ShapeKind.Rect⟩]
    | ElementData.Text _ => acc.1
  let selected_rect := if some element.id = selected_id then some rect else acc.2
  (rects, selected_rect)

/-- Source `PigmoraEngine::collect_rects`: iterate layers in order, skipping
invisible ones, accumulating primitives and the selected rectangle. -/
def PigmoraEngine.collect_rects (e : PigmoraEngine) : List RenderShape × Option Rect :=
  e.document.layers.foldl
    (fun acc layer =>
      if !layer.visible then acc
      else layer.elements.foldl (projectStep e.selected_element_id) acc)
    ([], none)

/-- First layer with the given id (the `iter().find(|l| l.id == layer_id)`
scan of the source). -/
def findLayer? (layers : List Layer) (lid : Nat) : Option Layer :=
  match layers with
  | [] => none
  | l :: ls => if l.id = lid then some l else findLayer? ls lid

/-- Whether some layer holds an element with the given id. -/
def containsElement (doc : Document) (eid : Nat) : Bool :=
  doc.layers.any (fun l => l.elements.any (fun e => e.id = eid))

/-- A command whose recorded layer id, index and element snapshots describe
the document's actual state at recording time:
for `AddElement`, the target layer exists and the element id is fresh
(it was freshly allocated by `next_element_id`);
for `DeleteElement`, removing the recorded element id from the document
yields exactly the recorded `(layer_id, index, element)` triple;
for `UpdateElement`, `before` and `after` carry the same element id and the
recorded slot of the recorded layer currently holds `before`. -/
def Command.wellRecorded : Command → Document → Bool
  | Command.AddElement layer_id _ el, doc =>
    (findLayer? doc.layers layer_id).isSome &&
      doc.layers.all (fun l => l.elements.all (fun e => e.id ≠ el.id))
  | Command.DeleteElement layer_id index el, doc =>
    ((removeByIdInLayers doc.layers el.id).map (fun r => (r.1, r.2.1, r.2.2.1)))
      == some (layer_id, index, el)
  | Command.UpdateElement layer_id index before aft, doc =>
    (before.id == aft.id) &&
      ((findLayer? doc.layers layer_id).bind (fun l => l.elements[index]?)) == some before

/-- All layer ids and element ids present in a document, in layer order. -/
def Document.allIds (doc : Document) : List Nat :=
  doc.layers.flatMap (fun l => l.id :: l.elements.map (fun e => e.id))

/-- An update carrying only the text-only fields (content, font family, font
size, fill). -/
def ElementUpdate.textOnly (u : ElementUpdate) : Bool :=
  u.name.isNone && u.x.isNone && u.y.isNone && u.width.isNone && u.height.isNone &&
    u.rotation.isNone

/-- The axis-aligned rectangle of an element's transform. -/
def rectOf (el : Element) : Rect :=
  ⟨el.transform.x, el.transform.y, el.transform.width, el.transform.height⟩

/-- The primitive an element contributes to the projected scene, if any:
Shape and Image elements yield one primitive with the kind mapping
Rect to Rect, Ellipse to Ellipse, Polygon to Diamond, Line to Rect, and
Image to Rect; Text elements yield none. -/
def renderPrimitive (el : Element) : Option RenderShape :=
  match el.data with
  | ElementData.Shape s =>
    some ⟨rectOf el,
      match s.shape_type with
      | ShapeType.Rect => ShapeKind.Rect
      | ShapeType.Ellipse => ShapeKind.Ellipse
      | ShapeType.Polygon => ShapeKind.Diamond
      | ShapeType.Line => ShapeKind.Rect⟩
  | ElementData.Image _ => some ⟨rectOf el, ShapeKind.Rect⟩
  | ElementData.Text _ => none

/-- The spec-level scene projection: visible layers in order, each
contributing its elements' primitives in order. -/
def specProjection (doc : Document) : List RenderShape :=
  (doc.layers.filter (fun l => l.visible)).flatMap
    (fun l => l.elements.filterMap renderPrimitive)

/-- The elements of the visible layers, in iteration order. -/
def visibleElements (doc : Document) : List Element :=
  (doc.layers.filter (fun l => l.visible)).flatMap (fun l => l.elements)

/-- A document with every Text element removed. -/
def eraseTexts (doc : Document) : Document :=
  { doc with layers :=
      (doc.layers.map
        (fun l => { l with elements := l.elements.filter (fun el => !el.data.isText) })) }

/- Concrete fixtures used by the witness theorems. -/

def tfA : Transform2D := Transform2D.new 10 10 160 120

/-- A shape payload with integer-valued color components (kernel-evaluable
rationals), used only as concrete test data. -/
def shapeRedF : ShapeElement :=
  { shape_type := ShapeType.Rect, fill := some ⟨Color.new 1 0 0 1⟩, stroke := none }

def textBlackF : TextElement :=
  { content := "hi", font_family := "system-ui", font_size := 24, fill := Color.new 0 0 0 1 }

def elShape : Element := Element.shape 2 "Shape" shapeRedF tfA

def elText : Element := Element.text 3 "Text" textBlackF (Transform2D.new 0 0 240 80)

def elGhost : Element := Element.shape 99 "Ghost" shapeRedF tfA

def docEmptyF : Document := Document.new 800 600

def docShapeF : Document :=
  { docEmptyF with
    layers := [{ Layer.new 1 "Layer 1" with elements := [elShape] }]
    next_id := 3 }

def docTextF : Document :=
  { docEmptyF with
    layers := [{ Layer.new 1 "Layer 1" with elements := [elShape, elText] }]
    next_id := 4 }

def histFailF : History := ⟨[Command.AddElement 1 0 elGhost], []⟩

/-- Update writing width 0 and nothing else. -/
def widthZeroUpdate : ElementUpdate := { ElementUpdate.empty with width := some 0 }

/-- Update writing height 0 and nothing else. -/
def heightZeroUpdate : ElementUpdate := { ElementUpdate.empty with height := some 0 }

/-- Text-only update writing a black fill. -/
def fillOnlyUpdate : ElementUpdate := { ElementUpdate.empty with fill := some (Color.new 0 0 0 1) }

/-- A loadable document whose single layer carries the id `u32::MAX`. -/
def docBig : Document :=
  { canvas := Canvas.new 0 0
    layers := [Layer.new u32Max "Layer 1"]
    active_layer_id := u32Max
    next_id := 1 }

/-- A concrete engine with no selection over the one-shape document. -/
def engNoSel : PigmoraEngine :=
  { document := docShapeF
    history := History.new
    selected_element_id := none
    active_tool := Tool.Select
    active_shape_type := ShapeType.Rect
    transform_snapshot := none }

/-- A concrete engine whose selection is the Text element of `docTextF`. -/
def engTextSel : PigmoraEngine :=
  { engNoSel with document := docTextF, selected_element_id := some 3 }

def tfB : Transform2D := Transform2D.new 50 60 200 100

def elShapeMoved : Element := { elShape with transform := tfB }

/-- Engine with an active snapshot identical to the live element. -/
def engSnapEq : PigmoraEngine :=
  { engNoSel with selected_element_id := some 2, transform_snapshot := some ⟨2, elShape⟩ }

/-- Engine with an active snapshot whose transform differs from the live
element. -/
def engSnapNe : PigmoraEngine :=
  { engNoSel with selected_element_id := some 2, transform_snapshot := some ⟨2, elShapeMoved⟩ }

end Pigmora

namespace Pigmora

/-- Claim C2: `History.record(cmd)` pushes `cmd` onto `undo_stack` and
unconditionally empties `redo_stack`; consequently, after recording A then B,
the sequence undo(); undo(); redo(); record(C) leaves the redo stack empty
and the next `redo()` call returns `false`. -/
theorem record_clears_redo_scenario (h : History) (A B C : Command) (d0 : Document) :
    ((h.record A).undo_stack = A :: h.undo_stack ∧ (h.record A).redo_stack = []) ∧
    (let s2 := (h.record A).record B
     let r1 := s2.undo d0
     let r2 := r1.1.undo r1.2.1
     let r3 := r2.1.redo r2.2.1
     let s6 := r3.1.record C
     s6.redo_stack = [] ∧ (s6.redo r3.2.1).2.2 = false) :=
  ⟨⟨rfl, rfl⟩, ⟨rfl, rfl⟩⟩

/-- Claim C3: `History.undo()` pops the top command of `undo_stack`; on a
successful `undo(doc)` the command moves to `redo_stack` and the call returns
`true`; on failure the command is discarded from both stacks, the call
returns `false`, and no command further down the stack is attempted — an
empty `undo_stack` and a diverged undo target are externally identical (both
return `false`). -/
theorem undo_pops_and_absorbs_failure (h : History) (doc : Document) :
    (h.undo_stack = [] → h.undo doc = (h, doc, false)) ∧
    (∀ c rest, h.undo_stack = c :: rest →
      ((c.undoCmd doc).2 = true →
        h.undo doc = (⟨rest, c :: h.redo_stack⟩, (c.undoCmd doc).1, true)) ∧
      ((c.undoCmd doc).2 = false →
        h.undo doc = (⟨rest, h.redo_stack⟩, (c.undoCmd doc).1, false))) := by
  constructor
  · intro he
    unfold History.undo
    rw [he]
  · intro c rest he
    constructor <;> intro hc <;> unfold History.undo <;> rw [he] <;> simp [hc]

/-- Witness for C3: a concrete history whose top command (an `AddElement`
for an element id absent from the document) fails to undo; the command is
dropped and the call reports `false`, exactly as an empty stack would. -/
theorem undo_pops_and_absorbs_failure_witness :
    histFailF.undo docEmptyF = (⟨[], []⟩, docEmptyF, false) := by
  have h :=
    ((undo_pops_and_absorbs_failure histFailF docEmptyF).2
      (Command.AddElement 1 0 elGhost) [] rfl).2 (by decide)
  rw [h]
  decide

/-! Helper lemmas on the element-list and layer-list scans. -/

theorem applyUpdateInLayers_after_eq (u : ElementUpdate) (eid : Nat) :
    ∀ (layers : List Layer) (q : Nat × Nat × Element × Element × List Layer),
      applyUpdateInLayers layers eid u = some q → q.2.2.2.1 = u.apply_to q.2.2.1 := by
  intro layers
  induction layers with
  | nil => intro q h; simp [applyUpdateInLayers] at h
  | cons l ls ih =>
    intro q h
    unfold applyUpdateInLayers at h
    split at h
    · split at h
      · cases h
        rfl
      · cases h
    · rcases Option.map_eq_some'.mp h with ⟨q', hq', hfq⟩
      have hq := ih q' hq'
      subst hfq
      exact hq

theorem replaceElemInList_self (eid : Nat) :
    ∀ (es : List Element) (i : Nat) (b : Element) (rest : List Element),
      removeElemInList es eid = some (i, b, rest) →
      replaceElemInList es eid b = some es := by
  intro es
  induction es with
  | nil => intro i b rest h; simp [removeElemInList] at h
  | cons e tl ih =>
    intro i b rest h
    unfold removeElemInList at h
    by_cases he : e.id = eid
    · rw [if_pos he] at h
      cases h
      simp [replaceElemInList, he]
    · rw [if_neg he] at h
      rcases Option.map_eq_some'.mp h with ⟨r', hr', hfr⟩
      cases hfr
      simp only [replaceElemInList, if_neg he]
      rw [ih r'.1 r'.2.1 r'.2.2 (by rw [hr'])]
      rfl

theorem removeElemInList_isSome (eid : Nat) :
    ∀ es : List Element,
      (removeElemInList es eid).isSome = es.any (fun e => e.id = eid) := by
  intro es
  induction es with
  | nil => rfl
  | cons e tl ih =>
    unfold removeElemInList
    by_cases he : e.id = eid
    · simp [he]
    · simp only [if_neg he, List.any_cons, Option.isSome_map']
      rw [ih]
      simp [he]

theorem replaceElemInList_isSome_of_remove (eid : Nat) (el' : Element) :
    ∀ (es : List Element) (r : Nat × Element × List Element),
      removeElemInList es eid = some r →
      (replaceElemInList es eid el').isSome = true := by
  intro es
  induction es with
  | nil => intro r h; simp [removeElemInList] at h
  | cons e tl ih =>
    intro r h
    unfold removeElemInList at h
    by_cases he : e.id = eid
    · simp [replaceElemInList, he]
    · rw [if_neg he] at h
      rcases Option.map_eq_some'.mp h with ⟨r', hr', _⟩
      simp only [replaceElemInList, if_neg he, Option.isSome_map']
      exact ih r' hr'

theorem applyUpdateInLayers_isSome (u : ElementUpdate) (eid : Nat) :
    ∀ layers : List Layer,
      (applyUpdateInLayers layers eid u).isSome =
        layers.any (fun l => l.elements.any (fun e => e.id = eid)) := by
  intro layers
  induction layers with
  | nil => rfl
  | cons l ls ih =>
    unfold applyUpdateInLayers
    split
    · next r hr =>
      have hrep := replaceElemInList_isSome_of_remove eid (u.apply_to r.2.1) l.elements r hr
      have hany : l.elements.any (fun e => e.id = eid) = true := by
        rw [← removeElemInList_isSome eid l.elements, hr]
        rfl
      split
      · simp [hany]
      · next hrep2 => rw [hrep2] at hrep; simp at hrep
    · next hr =>
      have hany : l.elements.any (fun e => e.id = eid) = false := by
        rw [← removeElemInList_isSome eid l.elements, hr]
        rfl
      simp only [Option.isSome_map', List.any_cons, hany, Bool.false_or]
      exact ih

theorem applyUpdateInLayers_noop (u : ElementUpdate) (eid : Nat) :
    ∀ (layers : List Layer) (q : Nat × Nat × Element × Element × List Layer),
      applyUpdateInLayers layers eid u = some q →
      u.apply_to q.2.2.1 = q.2.2.1 →
      q.2.2.2.2 = layers := by
  intro layers
  induction layers with
  | nil => intro q h _; simp [applyUpdateInLayers] at h
  | cons l ls ih =>
    intro q h hnoop
    unfold applyUpdateInLayers at h
    split at h
    · next r hr =>
      split at h
      · next es hrep =>
        cases h
        simp only at hnoop
        rw [hnoop] at hrep
        rw [replaceElemInList_self eid l.elements r.1 r.2.1 r.2.2 hr] at hrep
        cases hrep
        rfl
      · cases h
    · rcases Option.map_eq_some'.mp h with ⟨q', hq', hfq⟩
      subst hfq
      simp only at hnoop ⊢
      rw [ih q' hq' hnoop]

/-- Claim C6: an `ElementUpdate` clamps any written width or height to a
minimum of 1.0 — a written width `w` lands as `max w 1`, likewise for
height — and in particular `apply_update(id, {width: 0})` produces an
`after` whose transform width equals 1.0. -/
theorem update_clamps_dimensions :
    (∀ (el : Element) (u : ElementUpdate) (w : Rat), u.width = some w →
      (u.apply_to el).transform.width = max w 1) ∧
    (∀ (el : Element) (u : ElementUpdate) (ht : Rat), u.height = some ht →
      (u.apply_to el).transform.height = max ht 1) ∧
    (∀ (doc : Document) (eid : Nat) (r : Nat × Nat × Element × Element),
      (doc.apply_update eid widthZeroUpdate).1 = some r →
      r.2.2.2.transform.width = 1) := by
  refine ⟨?_, ?_, ?_⟩
  · intro el u w hw
    simp [ElementUpdate.apply_to, hw]
  · intro el u ht hh
    simp [ElementUpdate.apply_to, hh]
  · intro doc eid r h
    unfold Document.apply_update at h
    cases hq : applyUpdateInLayers doc.layers eid widthZeroUpdate with
    | none => rw [hq] at h; cases h
    | some q =>
      rw [hq] at h
      cases h
      have := applyUpdateInLayers_after_eq widthZeroUpdate eid doc.layers q hq
      simp only [this]
      simp [ElementUpdate.apply_to, widthZeroUpdate, ElementUpdate.empty]

/-- Witness for C6 at concrete inputs: writing width 0 (resp. height 0) to a
concrete shape element yields a width (resp. height) of `max 0 1`, and the
document-level `apply_update` with `{width: 0}` reports an `after` width of
1. -/
theorem update_clamps_dimensions_witness :
    (widthZeroUpdate.apply_to elShape).transform.width = max 0 1 ∧
    (heightZeroUpdate.apply_to elShape).transform.height = max 0 1 ∧
    (widthZeroUpdate.apply_to elShape).transform.width = 1 :=
  ⟨update_clamps_dimensions.1 elShape widthZeroUpdate 0 rfl,
   update_clamps_dimensions.2.1 elShape heightZeroUpdate 0 rfl,
   update_clamps_dimensions.2.2 docShapeF 2
     (1, 0, elShape, widthZeroUpdate.apply_to elShape) (by decide)⟩

/-- Claim C7: an update carrying only text-only fields leaves any Shape or
Image element entirely unchanged while the operation still reports success:
`apply_to` is the identity on non-Text elements, a successful `apply_update`
on a non-Text target returns `after = before` with the document unchanged,
and `apply_update` succeeds exactly when the element id exists. -/
theorem text_only_fields_ignored_on_non_text (u : ElementUpdate) (hu : u.textOnly = true) :
    (∀ el : Element, el.data.isText = false → u.apply_to el = el) ∧
    (∀ (doc : Document) (eid : Nat) (r : Nat × Nat × Element × Element),
      (doc.apply_update eid u).1 = some r → r.2.2.1.data.isText = false →
      r.2.2.2 = r.2.2.1 ∧ (doc.apply_update eid u).2 = doc) ∧
    (∀ (doc : Document) (eid : Nat),
      ((doc.apply_update eid u).1).isSome = containsElement doc eid) := by
  simp only [ElementUpdate.textOnly, Bool.and_eq_true, Option.isNone_iff_eq_none] at hu
  obtain ⟨⟨⟨⟨⟨hn, hx⟩, hy⟩, hw⟩, hh⟩, hr⟩ := hu
  have hid : ∀ el : Element, el.data.isText = false → u.apply_to el = el := by
    intro el hel
    obtain ⟨i, n, ⟨tx, ty, tw, th, tr⟩, d⟩ := el
    cases d with
    | Shape s => simp [ElementUpdate.apply_to, hn, hx, hy, hw, hh, hr]
    | Text t => simp [ElementData.isText] at hel
    | Image im => simp [ElementUpdate.apply_to, hn, hx, hy, hw, hh, hr]
  refine ⟨hid, ?_, ?_⟩
  · intro doc eid r h hnt
    unfold Document.apply_update at h ⊢
    cases hq : applyUpdateInLayers doc.layers eid u with
    | none => rw [hq] at h; cases h
    | some q =>
      rw [hq] at h
      cases h
      have hafter := applyUpdateInLayers_after_eq u eid doc.layers q hq
      have hnoop : u.apply_to q.2.2.1 = q.2.2.1 := hid q.2.2.1 hnt
      refine ⟨by rw [hafter, hnoop], ?_⟩
      have := applyUpdateInLayers_noop u eid doc.layers q hq hnoop
      simp [this]
  · intro doc eid
    unfold Document.apply_update
    cases hq : applyUpdateInLayers doc.layers eid u with
    | none =>
      have := applyUpdateInLayers_isSome u eid doc.layers
      rw [hq] at this
      simp only [containsElement]
      rw [← this]
      rfl
    | some q =>
      have := applyUpdateInLayers_isSome u eid doc.layers
      rw [hq] at this
      simp only [containsElement]
      rw [← this]
      rfl

/-- Witness for C7: the fill-only update applied to a concrete Shape element
leaves it unchanged, and the document-level call on it still succeeds with
`after = before` and an unchanged document. -/
theorem text_only_fields_ignored_witness :
    fillOnlyUpdate.apply_to elShape = elShape ∧
    ((docShapeF.apply_update 2 fillOnlyUpdate).1.isSome = containsElement docShapeF 2) := by
  have h := text_only_fields_ignored_on_non_text fillOnlyUpdate (by decide)
  exact ⟨h.1 elShape (by decide), h.2.2 docShapeF 2⟩

/-! Helper lemmas for the structural-command roundtrip (C1). -/

theorem removeElemInList_none_of_fresh (eid : Nat) :
    ∀ es : List Element, (∀ e ∈ es, e.id ≠ eid) → removeElemInList es eid = none := by
  intro es
  induction es with
  | nil => intro _; rfl
  | cons e tl ih =>
    intro h
    unfold removeElemInList
    rw [if_neg (h e (List.mem_cons_self e tl))]
    rw [ih (fun x hx => h x (List.mem_cons_of_mem e hx))]
    rfl

theorem removeElemInList_insertClamped (el : Element) :
    ∀ (es : List Element) (idx : Nat), (∀ e ∈ es, e.id ≠ el.id) →
      ∃ i, removeElemInList (insertClamped es idx el) el.id = some (i, el, es) := by
  intro es
  induction es with
  | nil =>
    intro idx _
    refine ⟨0, ?_⟩
    cases idx <;> simp [insertClamped, removeElemInList]
  | cons e tl ih =>
    intro idx h
    cases idx with
    | zero =>
      refine ⟨0, ?_⟩
      simp [insertClamped, removeElemInList]
    | succ n =>
      obtain ⟨i, hi⟩ := ih n (fun x hx => h x (List.mem_cons_of_mem e hx))
      refine ⟨i + 1, ?_⟩
      simp only [insertClamped, removeElemInList,
        if_neg (h e (List.mem_cons_self e tl)), hi]
      rfl

theorem insertAt_then_removeById (el : Element) :
    ∀ (layers : List Layer) (lid idx : Nat),
      (findLayer? layers lid).isSome = true →
      (∀ l ∈ layers, ∀ e ∈ l.elements, e.id ≠ el.id) →
      ∃ ls r, insertAtInLayers layers lid idx el = some ls ∧
        removeByIdInLayers ls el.id = some r ∧ r.2.2.2 = layers := by
  intro layers
  induction layers with
  | nil => intro lid idx hfind _; simp [findLayer?] at hfind
  | cons l rest ih =>
    intro lid idx hfind hfresh
    by_cases hl : l.id = lid
    · obtain ⟨i, hi⟩ :=
        removeElemInList_insertClamped el l.elements idx
          (fun e he => hfresh l (List.mem_cons_self l rest) e he)
      refine ⟨{ l with elements := insertClamped l.elements idx el } :: rest,
        (l.id, i, el, { l with elements := l.elements } :: rest), ?_, ?_, ?_⟩
      · simp [insertAtInLayers, hl]
      · simp only [removeByIdInLayers, hi]
      · simp
    · unfold findLayer? at hfind
      rw [if_neg hl] at hfind
      obtain ⟨ls', r', hins, hrem, hlay⟩ :=
        ih lid idx hfind (fun x hx => hfresh x (List.mem_cons_of_mem l hx))
      refine ⟨l :: ls', (r'.1, r'.2.1, r'.2.2.1, l :: r'.2.2.2), ?_, ?_, ?_⟩
      · simp only [insertAtInLayers, if_neg hl, hins]
        rfl
      · have hnone : removeElemInList l.elements el.id = none :=
          removeElemInList_none_of_fresh el.id l.elements
            (fun e he => hfresh l (List.mem_cons_self l rest) e he)
        simp only [removeByIdInLayers, hnone, hrem]
        rfl
      · simp [hlay]

theorem insertClamped_zero (es : List Element) (el : Element) :
    insertClamped es 0 el = el :: es := by
  cases es <;> rfl

theorem insertClamped_succ_cons (e : Element) (rest : List Element) (n : Nat) (el : Element) :
    insertClamped (e :: rest) (n + 1) el = e :: insertClamped rest n el := rfl

theorem insertClamped_of_remove (eid : Nat) :
    ∀ (es : List Element) (r : Nat × Element × List Element),
      removeElemInList es eid = some r → insertClamped r.2.2 r.1 r.2.1 = es := by
  intro es
  induction es with
  | nil => intro r h; simp [removeElemInList] at h
  | cons e tl ih =>
    intro r h
    unfold removeElemInList at h
    by_cases he : e.id = eid
    · rw [if_pos he] at h
      cases h
      exact insertClamped_zero tl e
    · rw [if_neg he] at h
      rcases Option.map_eq_some'.mp h with ⟨r', hr', hfr⟩
      cases hfr
      rw [show ((r'.1 + 1, r'.2.1, e :: r'.2.2) : Nat × Element × List Element).2.2
          = e :: r'.2.2 from rfl]
      rw [insertClamped_succ_cons]
      rw [ih r' hr']

theorem removeById_lid_mem (eid : Nat) :
    ∀ (layers : List Layer) (r : Nat × Nat × Element × List Layer),
      removeByIdInLayers layers eid = some r → r.1 ∈ layers.map (fun l => l.id) := by
  intro layers
  induction layers with
  | nil => intro r h; simp [removeByIdInLayers] at h
  | cons l rest ih =>
    intro r h
    unfold removeByIdInLayers at h
    split at h
    · cases h
      simp
    · rcases Option.map_eq_some'.mp h with ⟨r', hr', hfr⟩
      subst hfr
      simp only [List.map_cons, List.mem_cons]
      exact Or.inr (ih r' hr')

theorem removeById_then_insertAt (eid : Nat) :
    ∀ (layers : List Layer) (r : Nat × Nat × Element × List Layer),
      removeByIdInLayers layers eid = some r →
      (layers.map (fun l => l.id)).Nodup →
      insertAtInLayers r.2.2.2 r.1 r.2.1 r.2.2.1 = some layers := by
  intro layers
  induction layers with
  | nil => intro r h _; simp [removeByIdInLayers] at h
  | cons l rest ih =>
    intro r h hnodup
    unfold removeByIdInLayers at h
    split at h
    · next r0 hr0 =>
      cases h
      simp only [insertAtInLayers, if_pos rfl]
      rw [show insertClamped r0.2.2 r0.1 r0.2.1 = l.elements from
        insertClamped_of_remove eid l.elements r0 hr0]
      simp
    · next hr0 =>
      rcases Option.map_eq_some'.mp h with ⟨r', hr', hfr⟩
      subst hfr
      simp only [List.map_cons, List.nodup_cons] at hnodup
      have hmem := removeById_lid_mem eid rest r' hr'
      have hne : l.id ≠ r'.1 := fun hcontra => hnodup.1 (hcontra ▸ hmem)
      simp only [insertAtInLayers, if_neg hne]
      rw [ih r' hr' hnodup.2]
      rfl

theorem set_self_of_getElem? :
    ∀ (es : List Element) (i : Nat) (b : Element), es[i]? = some b → es.set i b = es := by
  intro es
  induction es with
  | nil => intro i b h; simp at h
  | cons e tl ih =>
    intro i b h
    cases i with
    | zero => simp at h; simp [h]
    | succ n =>
      simp only [List.getElem?_cons_succ] at h
      simp only [List.set_cons_succ]
      rw [ih n b h]

theorem replaceAt_roundtrip (lid idx : Nat) (before aft : Element) (hid : before.id = aft.id) :
    ∀ (layers : List Layer) (L : Layer),
      findLayer? layers lid = some L → L.elements[idx]? = some before →
      ∃ ls, replaceAtInLayers layers lid idx aft = some ls ∧
        replaceAtInLayers ls lid idx before = some layers := by
  intro layers
  induction layers with
  | nil => intro L h _; simp [findLayer?] at h
  | cons l rest ih =>
    intro L hfind hslot
    by_cases hl : l.id = lid
    · unfold findLayer? at hfind
      rw [if_pos hl] at hfind
      cases hfind
      have hlen : idx < l.elements.length := by
        rcases List.getElem?_eq_some.mp hslot with ⟨hlt, _⟩
        exact hlt
      refine ⟨{ l with elements := l.elements.set idx aft } :: rest, ?_, ?_⟩
      · simp only [replaceAtInLayers, if_pos hl, hslot]
        rw [if_pos (show before.id = aft.id from hid)]
      · simp only [replaceAtInLayers, if_pos hl, List.getElem?_set_self hlen]
        rw [if_pos (show aft.id = before.id from hid.symm)]
        rw [List.set_set, set_self_of_getElem? l.elements idx before hslot]
    · unfold findLayer? at hfind
      rw [if_neg hl] at hfind
      obtain ⟨ls', h1, h2⟩ := ih L hfind hslot
      refine ⟨l :: ls', ?_, ?_⟩
      · simp only [replaceAtInLayers, if_neg hl, h1]
        rfl
      · simp only [replaceAtInLayers, if_neg hl, h2]
        rfl

/-- Claim C1: for any single structural command whose recorded layer id,
index and element snapshots describe the document's actual state at recording
time (and whose layer ids are distinct, as the data model requires), applying
the command succeeds and undoing it afterwards succeeds and restores the
document exactly, layer order and element order included. -/
theorem structural_command_roundtrip (doc : Document) (cmd : Command)
    (hnodup : (doc.layers.map (fun l => l.id)).Nodup)
    (hwr : cmd.wellRecorded doc = true) :
    (cmd.apply doc).2 = true ∧
    (cmd.undoCmd (cmd.apply doc).1).2 = true ∧
    (cmd.undoCmd (cmd.apply doc).1).1 = doc := by
  cases cmd with
  | AddElement lid idx el =>
    simp only [Command.wellRecorded, Bool.and_eq_true, List.all_eq_true,
      decide_eq_true_eq] at hwr
    obtain ⟨hfind, hfresh⟩ := hwr
    obtain ⟨ls, r, hins, hrem, hlayers⟩ :=
      insertAt_then_removeById el doc.layers lid idx hfind hfresh
    have happ : (Command.AddElement lid idx el).apply doc = ({ doc with layers := ls }, true) := by
      simp only [Command.apply, Document.insert_element_at, hins]
    have hundo : (Command.AddElement lid idx el).undoCmd { doc with layers := ls } =
        ({ doc with layers := r.2.2.2 }, true) := by
      simp only [Command.undoCmd, Document.remove_element_by_id, hrem]
      rfl
    rw [happ]
    dsimp only
    rw [hundo]
    dsimp only
    refine ⟨rfl, rfl, ?_⟩
    rw [hlayers]
  | DeleteElement lid idx el =>
    simp only [Command.wellRecorded, beq_iff_eq] at hwr
    rcases Option.map_eq_some'.mp hwr with ⟨r, hrem, htup⟩
    have hins := removeById_then_insertAt el.id doc.layers r hrem hnodup
    have h1 : r.1 = lid := congrArg Prod.fst htup
    have h23 := congrArg Prod.snd htup
    have h2 : r.2.1 = idx := congrArg Prod.fst h23
    have h3 : r.2.2.1 = el := congrArg Prod.snd h23
    rw [h1, h2, h3] at hins
    have happ : (Command.DeleteElement lid idx el).apply doc =
        ({ doc with layers := r.2.2.2 }, true) := by
      simp only [Command.apply, Document.remove_element_by_id, hrem]
      rfl
    have hundo : (Command.DeleteElement lid idx el).undoCmd { doc with layers := r.2.2.2 } =
        ({ doc with layers := doc.layers }, true) := by
      simp only [Command.undoCmd, Document.insert_element_at, hins]
    rw [happ]
    dsimp only
    rw [hundo]
    dsimp only
    exact ⟨rfl, rfl, rfl⟩
  | UpdateElement lid idx before aft =>
    simp only [Command.wellRecorded, Bool.and_eq_true, beq_iff_eq] at hwr
    obtain ⟨hid, hbind⟩ := hwr
    rcases Option.bind_eq_some.mp hbind with ⟨L, hfind, hslot⟩
    obtain ⟨ls, h1, h2⟩ := replaceAt_roundtrip lid idx before aft hid doc.layers L hfind hslot
    have happ : (Command.UpdateElement lid idx before aft).apply doc =
        ({ doc with layers := ls }, true) := by
      simp only [Command.apply, Document.replace_element_at, h1]
    have hundo : (Command.UpdateElement lid idx before aft).undoCmd { doc with layers := ls } =
        ({ doc with layers := doc.layers }, true) := by
      simp only [Command.undoCmd, Document.replace_element_at, h2]
    rw [happ]
    dsimp only
    rw [hundo]
    dsimp only
    exact ⟨rfl, rfl, rfl⟩

/-- Witness for C1: deleting the only element of a concrete document and
undoing the deletion restores the document exactly. -/
theorem structural_command_roundtrip_witness :
    ((Command.DeleteElement 1 0 elShape).apply docShapeF).2 = true ∧
    ((Command.DeleteElement 1 0 elShape).undoCmd
      ((Command.DeleteElement 1 0 elShape).apply docShapeF).1).2 = true ∧
    ((Command.DeleteElement 1 0 elShape).undoCmd
      ((Command.DeleteElement 1 0 elShape).apply docShapeF).1).1 = docShapeF :=
  structural_command_roundtrip docShapeF (Command.DeleteElement 1 0 elShape)
    (by decide) (by decide)

/-! Helper lemmas on the max-id scan (C4). -/

theorem le_elemFold (es : List Element) :
    ∀ m : Nat, m ≤ es.foldl (fun m2 e => Nat.max m2 e.id) m := by
  induction es with
  | nil => intro m; exact Nat.le_refl m
  | cons e tl ih =>
    intro m
    exact Nat.le_trans (Nat.le_max_left m e.id) (ih (Nat.max m e.id))

theorem elem_le_elemFold (es : List Element) :
    ∀ (m : Nat) (e : Element), e ∈ es →
      e.id ≤ es.foldl (fun m2 e2 => Nat.max m2 e2.id) m := by
  induction es with
  | nil => intro m e h; cases h
  | cons x tl ih =>
    intro m e h
    rcases List.mem_cons.mp h with he | htl
    · subst he
      exact Nat.le_trans (Nat.le_max_right m e.id) (le_elemFold tl (Nat.max m e.id))
    · exact ih (Nat.max m x.id) e htl

theorem le_layerFold (layers : List Layer) :
    ∀ m : Nat,
      m ≤ layers.foldl
        (fun m2 l => l.elements.foldl (fun m3 e => Nat.max m3 e.id) (Nat.max m2 l.id)) m := by
  induction layers with
  | nil => intro m; exact Nat.le_refl m
  | cons l rest ih =>
    intro m
    simp only [List.foldl_cons]
    have h1 : m ≤ Nat.max m l.id := Nat.le_max_left m l.id
    have h2 := le_elemFold l.elements (Nat.max m l.id)
    have h3 := ih (l.elements.foldl (fun m3 e => Nat.max m3 e.id) (Nat.max m l.id))
    exact Nat.le_trans h1 (Nat.le_trans h2 h3)

theorem id_le_layerFold (layers : List Layer) :
    ∀ (m i : Nat),
      i ∈ layers.flatMap (fun l => l.id :: l.elements.map (fun e => e.id)) →
      i ≤ layers.foldl
        (fun m2 l => l.elements.foldl (fun m3 e => Nat.max m3 e.id) (Nat.max m2 l.id)) m := by
  induction layers with
  | nil => intro m i h; simp at h
  | cons l rest ih =>
    intro m i h
    simp only [List.flatMap_cons, List.mem_append, List.mem_cons, List.mem_map] at h
    simp only [List.foldl_cons]
    rcases h with (hl | ⟨e, he, hei⟩) | hrest
    · subst hl
      have h1 : l.id ≤ Nat.max m l.id := Nat.le_max_right m l.id
      have h2 := le_elemFold l.elements (Nat.max m l.id)
      have h3 := le_layerFold rest
        (l.elements.foldl (fun m3 e => Nat.max m3 e.id) (Nat.max m l.id))
      exact Nat.le_trans h1 (Nat.le_trans h2 h3)
    · subst hei
      have h2 := elem_le_elemFold l.elements (Nat.max m l.id) e he
      have h3 := le_layerFold rest
        (l.elements.foldl (fun m3 e2 => Nat.max m3 e2.id) (Nat.max m l.id))
      exact Nat.le_trans h2 h3
    · exact ih (l.elements.foldl (fun m3 e => Nat.max m3 e.id) (Nat.max m l.id)) i hrest

theorem elemFold_cases (es : List Element) :
    ∀ m : Nat,
      es.foldl (fun m2 e => Nat.max m2 e.id) m = m ∨
      ∃ e ∈ es, es.foldl (fun m2 e2 => Nat.max m2 e2.id) m = e.id := by
  induction es with
  | nil => intro m; exact Or.inl rfl
  | cons x tl ih =>
    intro m
    simp only [List.foldl_cons]
    rcases ih (Nat.max m x.id) with hbase | ⟨e, he, heq⟩
    · rcases Nat.le_total m x.id with hle | hge
      · exact Or.inr ⟨x, List.mem_cons_self x tl, by rw [hbase]; exact Nat.max_eq_right hle⟩
      · exact Or.inl (by rw [hbase]; exact Nat.max_eq_left hge)
    · exact Or.inr ⟨e, List.mem_cons_of_mem x he, heq⟩

theorem layerFold_cases (layers : List Layer) :
    ∀ m : Nat,
      layers.foldl
        (fun m2 l => l.elements.foldl (fun m3 e => Nat.max m3 e.id) (Nat.max m2 l.id)) m = m ∨
      layers.foldl
        (fun m2 l => l.elements.foldl (fun m3 e => Nat.max m3 e.id) (Nat.max m2 l.id)) m ∈
        layers.flatMap (fun l => l.id :: l.elements.map (fun e => e.id)) := by
  induction layers with
  | nil => intro m; exact Or.inl rfl
  | cons l rest ih =>
    intro m
    simp only [List.foldl_cons, List.flatMap_cons, List.mem_append, List.mem_cons, List.mem_map]
    rcases ih (l.elements.foldl (fun m3 e => Nat.max m3 e.id) (Nat.max m l.id)) with hbase | hmem
    · rw [hbase]
      rcases elemFold_cases l.elements (Nat.max m l.id) with hinner | ⟨e, he, heq⟩
      · rw [hinner]
        rcases Nat.le_total m l.id with hle | hge
        · exact Or.inr (Or.inl (Or.inl (Nat.max_eq_right hle)))
        · exact Or.inl (Nat.max_eq_left hge)
      · exact Or.inr (Or.inl (Or.inr ⟨e, he, heq.symm⟩))
    · exact Or.inr (Or.inr hmem)

/-- Claim C4, amended: after `recalculate_next_id()`, provided every id in
the document is strictly below `u32::MAX` (so that `saturating_add(1)` does
not saturate), the id returned by the next `next_element_id()` call is
strictly greater than every layer id and element id present in the
document. -/
theorem recalc_next_id_exceeds_all_ids (doc : Document)
    (hbound : ∀ i ∈ doc.allIds, i < u32Max) :
    ∀ i ∈ (doc.recalculate_next_id).allIds,
      i < ((doc.recalculate_next_id).next_element_id).1 := by
  intro i hi
  cases hemp : doc.layers.isEmpty with
  | false =>
    have hlayers : (doc.recalculate_next_id).layers = doc.layers := by
      simp [Document.recalculate_next_id, hemp]
    have hnext : (doc.recalculate_next_id).next_id =
        Nat.min (maxIdScan doc.layers + 1) u32Max := by
      simp [Document.recalculate_next_id, hemp]
    have hids : i ∈ doc.allIds := by
      simpa [Document.allIds, hlayers] using hi
    have hle : i ≤ maxIdScan doc.layers :=
      id_le_layerFold doc.layers 0 i hids
    have hlt : i < u32Max := hbound i hids
    have hgoal : i < Nat.min (maxIdScan doc.layers + 1) u32Max :=
      Nat.lt_min.mpr ⟨Nat.lt_succ_of_le hle, hlt⟩
    simpa [Document.next_element_id, hnext] using hgoal
  | true =>
    have hnil : doc.layers = [] := List.isEmpty_iff.mp hemp
    have hmin : Nat.min (0 + 1) u32Max = 1 := by decide
    have hdoc : doc.recalculate_next_id =
        ⟨doc.canvas, [Layer.new 1 "Layer 1"], 1, (1 + 1) % 2 ^ 32⟩ := by
      simp [Document.recalculate_next_id, hnil, maxIdScan, Document.next_element_id, hmin]
    rw [hdoc] at hi ⊢
    simp only [Document.allIds, Layer.new, List.flatMap_cons, List.flatMap_nil,
      List.map_nil, List.append_nil, List.mem_cons, List.not_mem_nil, or_false] at hi
    subst hi
    simp only [Document.next_element_id]
    decide

/-- Counterexample for C4 as stated: a loadable document holding the layer id
`u32::MAX = 4294967295`; after `recalculate_next_id()` (whose
`saturating_add` caps at `u32::MAX`), the next allocated id equals that layer
id instead of strictly exceeding it. -/
theorem recalc_not_strictly_greater_at_u32max :
    u32Max ∈ docBig.allIds ∧
    ((docBig.recalculate_next_id).next_element_id).1 = u32Max := by
  constructor
  · simp [docBig, Document.allIds, Layer.new]
  · decide

/-- Witness for the amended C4 at a concrete document: id 2 is present and
the next allocated id after recalculation exceeds it. -/
theorem recalc_next_id_exceeds_witness :
    2 < ((docShapeF.recalculate_next_id).next_element_id).1 :=
  recalc_next_id_exceeds_all_ids docShapeF (by decide) 2 (by decide)

/-! Helper lemmas on the scene projection (C8, C9). -/

theorem projectStep_fst (sel : Option Nat) (acc : List RenderShape × Option Rect)
    (e : Element) :
    (projectStep sel acc e).1 = acc.1 ++ (renderPrimitive e).toList := by
  cases hd : e.data <;> simp [projectStep, renderPrimitive, hd, rectOf]

theorem projectStep_snd (sel : Option Nat) (acc : List RenderShape × Option Rect)
    (e : Element) :
    (projectStep sel acc e).2 = if some e.id = sel then some (rectOf e) else acc.2 := rfl

theorem elemFold_fst (sel : Option Nat) :
    ∀ (es : List Element) (acc : List RenderShape × Option Rect),
      (es.foldl (projectStep sel) acc).1 = acc.1 ++ es.filterMap renderPrimitive := by
  intro es
  induction es with
  | nil => intro acc; simp
  | cons e tl ih =>
    intro acc
    simp only [List.foldl_cons]
    rw [ih (projectStep sel acc e), projectStep_fst]
    cases hrp : renderPrimitive e <;> simp [List.filterMap_cons, hrp]

theorem elemFold_snd (sel : Option Nat) :
    ∀ (es : List Element) (acc : List RenderShape × Option Rect),
      (es.foldl (projectStep sel) acc).2 =
        es.foldl (fun a x => if some x.id = sel then some (rectOf x) else a) acc.2 := by
  intro es
  induction es with
  | nil => intro acc; rfl
  | cons e tl ih =>
    intro acc
    simp only [List.foldl_cons]
    rw [ih (projectStep sel acc e), projectStep_snd]

theorem layerFold_fst (sel : Option Nat) :
    ∀ (layers : List Layer) (acc : List RenderShape × Option Rect),
      (layers.foldl
        (fun acc layer =>
          if !layer.visible then acc
          else layer.elements.foldl (projectStep sel) acc) acc).1 =
      acc.1 ++ (layers.filter (fun l => l.visible)).flatMap
        (fun l => l.elements.filterMap renderPrimitive) := by
  intro layers
  induction layers with
  | nil => intro acc; simp
  | cons l rest ih =>
    intro acc
    simp only [List.foldl_cons]
    cases hv : l.visible with
    | false =>
      rw [if_pos (show (!false) = true from rfl)]
      rw [ih acc]
      simp [List.filter_cons, hv]
    | true =>
      rw [if_neg (show ¬((!true) = true) from by simp)]
      rw [ih (l.elements.foldl (projectStep sel) acc), elemFold_fst]
      simp [List.filter_cons, hv, List.flatMap_cons, List.append_assoc]

theorem layerFold_snd (sel : Option Nat) :
    ∀ (layers : List Layer) (acc : List RenderShape × Option Rect),
      (layers.foldl
        (fun acc layer =>
          if !layer.visible then acc
          else layer.elements.foldl (projectStep sel) acc) acc).2 =
      ((layers.filter (fun l => l.visible)).flatMap (fun l => l.elements)).foldl
        (fun a x => if some x.id = sel then some (rectOf x) else a) acc.2 := by
  intro layers
  induction layers with
  | nil => intro acc; rfl
  | cons l rest ih =>
    intro acc
    simp only [List.foldl_cons]
    cases hv : l.visible with
    | false =>
      rw [if_pos (show (!false) = true from rfl)]
      rw [ih acc]
      simp [List.filter_cons, hv]
    | true =>
      rw [if_neg (show ¬((!true) = true) from by simp)]
      rw [ih (l.elements.foldl (projectStep sel) acc), elemFold_snd]
      simp [List.filter_cons, hv, List.flatMap_cons, List.foldl_append]

theorem collect_fst_eq_spec (e : PigmoraEngine) :
    (e.collect_rects).1 = specProjection e.document := by
  unfold PigmoraEngine.collect_rects specProjection
  rw [layerFold_fst]
  simp

/-- Claim C8: the scene projection walks the layers in order, contributes
nothing from invisible layers (the visibility filter is the only layer-level
test — locked layers still contribute), and maps each remaining Shape or
Image element to one primitive whose kind follows Rect→Rect,
Ellipse→Ellipse, Polygon→Diamond, Line→Rect, Image→Rect and whose rectangle
is taken from `transform.{x,y,width,height}` with no use of rotation (see
`renderPrimitive`). -/
theorem collect_rects_is_spec_projection (e : PigmoraEngine) :
    (e.collect_rects).1 = specProjection e.document :=
  collect_fst_eq_spec e

theorem filterMap_renderPrimitive_filter_nonText :
    ∀ es : List Element,
      (es.filter (fun el => !el.data.isText)).filterMap renderPrimitive =
        es.filterMap renderPrimitive := by
  intro es
  induction es with
  | nil => rfl
  | cons e tl ih =>
    cases hd : e.data with
    | Text t =>
      have h1 : (!e.data.isText) = false := by rw [hd]; rfl
      have h2 : renderPrimitive e = none := by unfold renderPrimitive; rw [hd]
      rw [List.filter_cons, if_neg (by rw [h1]; simp), ih, List.filterMap_cons, h2]
    | Shape s =>
      have h1 : (!e.data.isText) = true := by rw [hd]; rfl
      rw [List.filter_cons, if_pos h1, List.filterMap_cons, List.filterMap_cons, ih]
    | Image im =>
      have h1 : (!e.data.isText) = true := by rw [hd]; rfl
      rw [List.filter_cons, if_pos h1, List.filterMap_cons, List.filterMap_cons, ih]

theorem specProjection_eraseTexts (doc : Document) :
    specProjection (eraseTexts doc) = specProjection doc := by
  unfold specProjection eraseTexts
  suffices h : ∀ ls : List Layer,
      (((ls.map (fun l =>
          { l with elements := l.elements.filter (fun el => !el.data.isText) })).filter
        (fun l => l.visible)).flatMap (fun l => l.elements.filterMap renderPrimitive)) =
      ((ls.filter (fun l => l.visible)).flatMap
        (fun l => l.elements.filterMap renderPrimitive)) by
    exact h doc.layers
  intro ls
  induction ls with
  | nil => rfl
  | cons l rest ih =>
    cases hv : l.visible with
    | false => simp [List.filter_cons, hv, ih]
    | true => simp [List.filter_cons, hv, List.flatMap_cons, ih,
        filterMap_renderPrimitive_filter_nonText]

theorem selFold_nomatch (sel : Option Nat) :
    ∀ (es : List Element) (a : Option Rect),
      es.filter (fun x => some x.id = sel) = [] →
      es.foldl (fun a2 x => if some x.id = sel then some (rectOf x) else a2) a = a := by
  intro es
  induction es with
  | nil => intro a _; rfl
  | cons x tl ih =>
    intro a h
    rw [List.filter_cons] at h
    by_cases hx : some x.id = sel
    · rw [if_pos (decide_eq_true hx)] at h
      cases h
    · rw [if_neg (fun hc => hx (of_decide_eq_true hc))] at h
      simp only [List.foldl_cons, if_neg hx]
      exact ih a h

theorem selFold_unique (sel : Option Nat) :
    ∀ (es : List Element) (a : Option Rect) (el0 : Element),
      es.filter (fun x => some x.id = sel) = [el0] →
      es.foldl (fun a2 x => if some x.id = sel then some (rectOf x) else a2) a =
        some (rectOf el0) := by
  intro es
  induction es with
  | nil => intro a el0 h; simp at h
  | cons x tl ih =>
    intro a el0 h
    rw [List.filter_cons] at h
    by_cases hx : some x.id = sel
    · rw [if_pos (decide_eq_true hx)] at h
      have hx0 : x = el0 := ((List.cons.injEq _ _ _ _).mp h).1
      have htl : tl.filter (fun x => some x.id = sel) = [] :=
        ((List.cons.injEq _ _ _ _).mp h).2
      simp only [List.foldl_cons, if_pos hx]
      rw [selFold_nomatch sel tl (some (rectOf x)) htl, hx0]
    · rw [if_neg (fun hc => hx (of_decide_eq_true hc))] at h
      simp only [List.foldl_cons, if_neg hx]
      exact ih a el0 h

/-- Claim C9: for every document and selection, a Text element never
contributes a render primitive — the primitive list is unchanged when every
Text element is deleted from the document, unconditionally — and when the
selection is a Text element sitting (uniquely) on a visible layer, its
bounding rectangle is still surfaced as the selection-highlight rectangle. -/
theorem text_renders_nothing_but_selects (e : PigmoraEngine) :
    (e.collect_rects).1 =
      (PigmoraEngine.collect_rects { e with document := eraseTexts e.document }).1 ∧
    (∀ el0 : Element,
      e.selected_element_id = some el0.id →
      (visibleElements e.document).filter
        (fun x => some x.id = e.selected_element_id) = [el0] →
      el0.data.isText = true →
      (e.collect_rects).2 = some (rectOf el0)) := by
  constructor
  · rw [collect_fst_eq_spec, collect_fst_eq_spec]
    exact (specProjection_eraseTexts e.document).symm
  · intro el0 _hsel huniq _htext
    unfold PigmoraEngine.collect_rects
    rw [layerFold_snd]
    exact selFold_unique e.selected_element_id (visibleElements e.document) none el0 huniq

/-- Witness for C9: on a concrete engine whose selection is the Text element
of a visible layer holding one shape and one text, the primitive list is that
of the text-free document and the highlight rectangle is the text's. -/
theorem text_renders_nothing_but_selects_witness :
    (engTextSel.collect_rects).1 =
      (PigmoraEngine.collect_rects
        { engTextSel with document := eraseTexts engTextSel.document }).1 ∧
    (engTextSel.collect_rects).2 = some (rectOf elText) := by
  have h := text_renders_nothing_but_selects engTextSel
  exact ⟨h.1, h.2 elText rfl (by decide) rfl⟩

/-! Lemmas for the transaction-commit and update-recording claims (C5, C10). -/

theorem find_location_of_get (doc : Document) (eid : Nat) (el : Element)
    (h : doc.get_element_by_id eid = some el) :
    ∃ r, findInLayers doc.layers eid = some r ∧ r.2.2 = el ∧
      doc.find_element_location eid = some (r.1, r.2.1) := by
  unfold Document.get_element_by_id at h
  cases hf : findInLayers doc.layers eid with
  | none => rw [hf] at h; cases h
  | some r =>
    rw [hf] at h
    refine ⟨r, rfl, ?_, ?_⟩
    · exact Option.some.inj h
    · unfold Document.find_element_location
      rw [hf]
      rfl

/-- Claim C5: `commit_transform()` always consumes the snapshot; when the
snapshot's transform equals the live element's transform bit-for-bit it
records nothing and returns `false`; when they differ it records exactly one
`UpdateElement` whose `before` is the snapshot and whose `after` is the
element's current state, at the element's current `(layer_id, index)`. -/
theorem commit_transform_noop_or_records (e : PigmoraEngine) (snap : TransformSnapshot)
    (after : Element)
    (hsnap : e.transform_snapshot = some snap)
    (hget : e.document.get_element_by_id snap.element_id = some after) :
    (snap.before.transform = after.transform →
      (e.commit_transform).2 = false ∧
      (e.commit_transform).1.history = e.history ∧
      (e.commit_transform).1.transform_snapshot = none) ∧
    (snap.before.transform ≠ after.transform →
      (e.commit_transform).2 = true ∧
      ∃ lid idx, e.document.find_element_location snap.element_id = some (lid, idx) ∧
        (e.commit_transform).1.history.undo_stack =
          Command.UpdateElement lid idx snap.before after :: e.history.undo_stack ∧
        (e.commit_transform).1.transform_snapshot = none) := by
  obtain ⟨r, hf, hrel, hloc⟩ := find_location_of_get e.document snap.element_id after hget
  constructor
  · intro heq
    have hres : e.commit_transform = ({ e with transform_snapshot := none }, false) := by
      unfold PigmoraEngine.commit_transform
      rw [hsnap]
      dsimp only
      rw [hget]
      dsimp only
      rw [if_pos heq]
    rw [hres]
    exact ⟨rfl, rfl, rfl⟩
  · intro hne
    have hres : e.commit_transform =
        ({ e with
            transform_snapshot := none
            history := e.history.record
              (Command.UpdateElement r.1 r.2.1 snap.before after) }, true) := by
      unfold PigmoraEngine.commit_transform
      rw [hsnap]
      dsimp only
      rw [hget]
      dsimp only
      rw [if_neg hne]
      rw [show ({ e with transform_snapshot := none } :
          PigmoraEngine).document.find_element_location snap.element_id
          = some (r.1, r.2.1) from hloc]
    rw [hres]
    exact ⟨rfl, r.1, r.2.1, hloc, rfl, rfl⟩

/-- Witness for C5 at two concrete engines: an identical snapshot commits to
`false` with an unchanged history; a differing snapshot commits to `true`
with exactly one recorded `UpdateElement`. -/
theorem commit_transform_witness :
    ((engSnapEq.commit_transform).2 = false ∧
      (engSnapEq.commit_transform).1.history = engSnapEq.history) ∧
    ((engSnapNe.commit_transform).2 = true ∧
      (engSnapNe.commit_transform).1.history.undo_stack.length =
        engSnapNe.history.undo_stack.length + 1) := by
  constructor
  · have h := (commit_transform_noop_or_records engSnapEq ⟨2, elShape⟩ elShape rfl
      (by decide)).1 rfl
    exact ⟨h.1, h.2.1⟩
  · have h := (commit_transform_noop_or_records engSnapNe ⟨2, elShapeMoved⟩ elShape rfl
      (by decide)).2 (by decide)
    obtain ⟨hb, lid, idx, hloc, hcons, hsnap⟩ := h
    refine ⟨hb, ?_⟩
    rw [hcons]
    rfl

theorem sync_selection_history (e : PigmoraEngine) :
    (e.sync_selection).history = e.history := by
  unfold PigmoraEngine.sync_selection
  cases e.selected_element_id with
  | none => rfl
  | some eid =>
    dsimp only
    split <;> rfl

/-- Claim C10: every successful `update_element` call grows the undo stack by
exactly one `UpdateElement` command — also when the update changes nothing
(`after = before`), unlike `commit_transform`'s no-op suppression. -/
theorem update_element_always_records (e : PigmoraEngine) (eid : Nat) (u : ElementUpdate)
    (hok : (e.update_element eid u).2 = true) :
    ∃ lid idx b a,
      (e.update_element eid u).1.history.undo_stack =
        Command.UpdateElement lid idx b a :: e.history.undo_stack ∧
      (e.update_element eid u).1.history.undo_stack.length =
        e.history.undo_stack.length + 1 := by
  unfold PigmoraEngine.update_element at hok ⊢
  cases hap : e.document.apply_update eid u with
  | mk o d =>
    rw [hap] at hok
    cases o with
    | none => simp at hok
    | some r =>
      dsimp only
      refine ⟨r.1, r.2.1, r.2.2.1, r.2.2.2, ?_, ?_⟩
      · split
        · rw [sync_selection_history]
          rfl
        · rfl
      · split
        · rw [sync_selection_history]
          rfl
        · rfl

/-- Witness for C10: a text-only (fill) update on a concrete Shape element is
a no-op on the document yet still grows the undo stack by one. -/
theorem update_element_always_records_witness :
    (engNoSel.update_element 2 fillOnlyUpdate).1.history.undo_stack.length =
      engNoSel.history.undo_stack.length + 1 ∧
    (engNoSel.update_element 2 fillOnlyUpdate).1.document = engNoSel.document := by
  obtain ⟨lid, idx, b, a, hcons, hlen⟩ :=
    update_element_always_records engNoSel 2 fillOnlyUpdate (by decide)
  exact ⟨hlen, by decide⟩

end Pigmora
